import Mathlib

/-!
# Verification of the `pdf-file-page-counter` batch pipeline

A shallow embedding of `src/src/App.tsx`.  Pure string helpers model the
JavaScript string primitives the component uses (`includes`, `endsWith`,
`toUpperCase`, `toLowerCase`, `localeCompare`); the asynchronous file and
PDF collaborators (`FileSystemFileHandle.getFile`, `File.arrayBuffer`,
`pdfjsLib.getDocument`) are modelled by recording, on each file handle,
whether the corresponding step succeeds, together with the page count and
last-modified date the collaborator would report.  Exceptions are modelled
explicitly: a `thrown` flag on the outcome of `processPDFFile` records an
exception escaping the per-file code, and the batch/run loops short-circuit
on it the way an uncaught exception unwinds the `for` loops.
-/

namespace PDFCounter

/-- Model of JavaScript `String.prototype.includes` on character lists:
`sub` occurs as a contiguous substring. -/
def listIncludes (sub : List Char) : List Char → Bool
  | [] => sub.isEmpty
  | c :: t => sub.isPrefixOf (c :: t) || listIncludes sub t

/-- `s.includes(sub)` from JavaScript. -/
def jsIncludes (s sub : String) : Bool :=
  listIncludes sub.toList s.toList

/-- `s.endsWith(suffix)` from JavaScript (case-sensitive). -/
def jsEndsWith (s suffix : String) : Bool :=
  suffix.toList.isSuffixOf s.toList

/-- `s.toUpperCase()` from JavaScript, modelled characterwise (the
filenames involved are ASCII). -/
def jsToUpper (s : String) : String :=
  ⟨s.toList.map Char.toUpper⟩

/-- `s.toLowerCase()` from JavaScript, modelled characterwise. -/
def jsToLower (s : String) : String :=
  ⟨s.toList.map Char.toLower⟩

/-- Three-way lexicographic comparison of character lists, the model of
`String.prototype.localeCompare` (locale effects abstracted to code-point
order; only its sign and zero/nonzero structure matter here). -/
def charListCmp : List Char → List Char → Int
  | [], [] => 0
  | [], _ :: _ => -1
  | _ :: _, [] => 1
  | a :: as, b :: bs =>
    if a < b then -1 else if b < a then 1 else charListCmp as bs

/-- `a.localeCompare(b)` from JavaScript. -/
def localeCompare (a b : String) : Int :=
  charListCmp a.toList b.toList

/-- Two-digit zero padding used by `toLocaleDateString('en-GB', {'2-digit'})`. -/
def pad2 (n : Nat) : String :=
  if n < 10 then "0" ++ toString n else toString n

/-- `formatDate` (App.tsx:67-75): en-GB `DD/MM/YYYY` with `/` replaced by `-`. -/
def formatDate (day month year : Nat) : String :=
  pad2 day ++ "-" ++ pad2 month ++ "-" ++ toString year

/-- `FileSystemHandle.kind`. -/
inductive HandleKind
  | file
  | directory
deriving DecidableEq

/-- The three document categories (the `type` union in App.tsx:30). -/
inductive PDFType
  | WIDE
  | A3
  | A4
deriving DecidableEq

/-- The string stored in the `type` field of a `FileInfo` in the source. -/
def typeLabel : PDFType → String
  | .WIDE => "WIDE"
  | .A3 => "A3"
  | .A4 => "A4"

/-- A `FileSystemFileHandle` together with the behaviour of the external
collaborators on it: whether `getFile()`, `file.arrayBuffer()` and
`pdfjsLib.getDocument(...)` succeed, the page count the parser reports,
and the file's last-modified date (already split into day/month/year). -/
structure PDFHandle where
  name : String
  kind : HandleKind
  getFileOk : Bool
  arrayBufferOk : Bool
  parseOk : Bool
  numPages : Nat
  lmDay : Nat
  lmMonth : Nat
  lmYear : Nat
deriving DecidableEq

/-- `FileInfo` (App.tsx:27-33). -/
structure FileInfo where
  name : String
  pages : Nat
  type : PDFType
  createdAt : String
  fileHandle : PDFHandle
deriving DecidableEq

/-- `PageCounts` (App.tsx:21-25). -/
structure PageCounts where
  WIDE : Nat
  A3 : Nat
  A4 : Nat
deriving DecidableEq

/-- Read a tally by category. -/
def countsOf (c : PageCounts) : PDFType → Nat
  | .WIDE => c.WIDE
  | .A3 => c.A3
  | .A4 => c.A4

/-- `counts.X += n` for the category `t`. -/
def addPages (c : PageCounts) (t : PDFType) (n : Nat) : PageCounts :=
  match t with
  | .WIDE => { c with WIDE := c.WIDE + n }
  | .A3 => { c with A3 := c.A3 + n }
  | .A4 => { c with A4 := c.A4 + n }

/-- The classification logic of `processPDFFile` (App.tsx:85,93-105) in
isolation: uppercase the name and test the markers `-WIDE`, `-A3`, `-A4`
in that order; `none` means unclassified. -/
def classify (name : String) : Option PDFType :=
  let fileName := jsToUpper name
  if jsIncludes fileName "-WIDE" then some .WIDE
  else if jsIncludes fileName "-A3" then some .A3
  else if jsIncludes fileName "-A4" then some .A4
  else none

/-- The `FileInfo` record built at App.tsx:107-113. -/
def mkFileInfo (h : PDFHandle) (t : PDFType) : FileInfo :=
  { name := h.name
    pages := h.numPages
    type := t
    createdAt := formatDate h.lmDay h.lmMonth h.lmYear
    fileHandle := h }

/-- Outcome of one `processPDFFile` call: the counts object after the call
(it is mutated in place in the source), the returned record (if any),
whether `getDocument` was invoked on the file's bytes, and whether an
exception escaped the function uncaught. -/
structure FileOutcome where
  counts : PageCounts
  record : Option FileInfo
  parsed : Bool
  thrown : Bool
deriving DecidableEq

/-- `processPDFFile` (App.tsx:80-123).  The guard re-checks the extension
case-sensitively (`fileHandle.name.endsWith('.pdf')`); `getFile()` is
awaited *outside* the `try` block, so its failure escapes uncaught, while
`arrayBuffer()` and `getDocument` failures are caught and yield `null`. -/
def processPDFFile (fileHandle : PDFHandle) (counts : PageCounts) : FileOutcome :=
  if fileHandle.kind = HandleKind.file ∧ jsEndsWith fileHandle.name ".pdf" = true then
    if fileHandle.getFileOk = false then
      { counts := counts, record := none, parsed := false, thrown := true }
    else if fileHandle.arrayBufferOk = false then
      { counts := counts, record := none, parsed := false, thrown := false }
    else if fileHandle.parseOk = false then
      { counts := counts, record := none, parsed := true, thrown := false }
    else
      let fileName := jsToUpper fileHandle.name
      if jsIncludes fileName "-WIDE" then
        { counts := addPages counts .WIDE fileHandle.numPages
          record := some (mkFileInfo fileHandle .WIDE), parsed := true, thrown := false }
      else if jsIncludes fileName "-A3" then
        { counts := addPages counts .A3 fileHandle.numPages
          record := some (mkFileInfo fileHandle .A3), parsed := true, thrown := false }
      else if jsIncludes fileName "-A4" then
        { counts := addPages counts .A4 fileHandle.numPages
          record := some (mkFileInfo fileHandle .A4), parsed := true, thrown := false }
      else
        { counts := counts, record := none, parsed := true, thrown := false }
  else
    { counts := counts, record := none, parsed := false, thrown := false }

/-- The mutable state threaded through a run: the `counts` object, the
`processedFiles` array (published via `setFileList`), and whether an
uncaught exception is unwinding the loops. -/
structure RunState where
  counts : PageCounts
  fileList : List FileInfo
  thrown : Bool
deriving DecidableEq

/-- The loop body of `processPDFBatch` (App.tsx:132-142) for one file.
Once an exception is unwinding (`thrown`), no further body runs. -/
def stepFile (s : RunState) (h : PDFHandle) : RunState :=
  if s.thrown then s
  else
    let o := processPDFFile h s.counts
    { counts := o.counts
      fileList :=
        match o.record with
        | some r => s.fileList ++ [r]
        | none => s.fileList
      thrown := o.thrown }

/-- `processPDFBatch` (App.tsx:125-155): process each file of the batch
in order (progress publication and delays have no effect on the state
modelled here). -/
def processPDFBatch (pdfFiles : List PDFHandle) (s : RunState) : RunState :=
  pdfFiles.foldl stepFile s

/-- The candidate collection of `analysePDFs` (App.tsx:184-192): keep
entries that are files whose lowercased name ends in `.pdf`. -/
def collectPDFFiles (entries : List PDFHandle) : List PDFHandle :=
  entries.filter fun h =>
    h.kind == HandleKind.file && jsEndsWith (jsToLower h.name) ".pdf"

/-- The body of the batching loop, structurally recursive on a fuel
argument so that it evaluates by kernel reduction; `batches` supplies
`l.length` as fuel, which dominates the recursion depth whenever the
batch size is positive. -/
def batchesFuel (B : Nat) : Nat → List α → List (List α)
  | _, [] => []
  | 0, _ :: _ => []
  | fuel + 1, a :: t => ((a :: t).take B) :: batchesFuel B fuel ((a :: t).drop B)

/-- The batching loop of `analysePDFs` (App.tsx:197-211):
`slice(i, i + B)` for `i = 0, B, 2B, ...`.  For `B = 0` the source loop
would not terminate; the claims only concern positive batch sizes. -/
def batches (B : Nat) (l : List α) : List (List α) :=
  if B = 0 then [] else batchesFuel B l.length l

/-- `Math.ceil(N / B)` on naturals (`totalBatches`, App.tsx:194). -/
def totalBatches (N B : Nat) : Nat := (N + B - 1) / B

/-- `counts` and `processedFiles` as initialised at App.tsx:180-181. -/
def initialRunState : RunState :=
  { counts := { WIDE := 0, A3 := 0, A4 := 0 }, fileList := [], thrown := false }

/-- The batch loop of `analysePDFs` applied to an already-collected
candidate list. -/
def runBatches (B : Nat) (pdfFiles : List PDFHandle) (s : RunState) : RunState :=
  (batches B pdfFiles).foldl (fun st batch => processPDFBatch batch st) s

/-- A whole `analysePDFs` run (App.tsx:157-224) over the entries of the
chosen directory, with batch size `B`.  The run-level `catch` turns an
escaped exception into an alert; the state it leaves behind is the state
at the moment of the throw. -/
def analysePDFs (B : Nat) (entries : List PDFHandle) : RunState :=
  runBatches B (collectPDFFiles entries) initialRunState

/-- The state after the first `k` batches of a run (the publication point
"after a batch completes"). -/
def runPrefix (B : Nat) (entries : List PDFHandle) (k : Nat) : RunState :=
  ((batches B (collectPDFFiles entries)).take k).foldl
    (fun st batch => processPDFBatch batch st) initialRunState

/-- Rows of the "Page Counter" sheet (App.tsx:372-375):
`Object.entries(pageCounts)` in insertion order WIDE, A3, A4. -/
def pageCounterData (counts : PageCounts) : List (String × Nat) :=
  [("WIDE", counts.WIDE), ("A3", counts.A3), ("A4", counts.A4)]

/-- Rows of the "Completed Files" sheet (App.tsx:378-383), one per
`FileInfo` in result-store order. -/
def completedFilesData (fileList : List FileInfo) : List (String × String × Nat × String) :=
  fileList.map fun file => (file.name, typeLabel file.type, file.pages, file.createdAt)

/-- `fileList.filter` predicate of `filteredFiles` (App.tsx:316-324). -/
def fileMatchesQuery (searchQuery : String) (file : FileInfo) : Bool :=
  let query := jsToLower searchQuery
  jsIncludes (jsToLower file.name) query ||
  jsIncludes (jsToLower (typeLabel file.type)) query ||
  jsIncludes (toString file.pages) query ||
  jsIncludes (jsToLower file.createdAt) query

/-- `filteredFiles` (App.tsx:316-324). -/
def filteredFiles (fileList : List FileInfo) (searchQuery : String) : List FileInfo :=
  fileList.filter (fileMatchesQuery searchQuery)

/-- The sort keys (`SortField`, App.tsx:42). -/
inductive SortField
  | name
  | type
  | pages
  | createdAt
deriving DecidableEq

/-- `SortDirection` (App.tsx:43). -/
inductive SortDirection
  | asc
  | desc
deriving DecidableEq

/-- The `direction` multiplier of the comparator (App.tsx:327). -/
def dirSign : SortDirection → Int
  | .asc => 1
  | .desc => -1

/-- The per-field three-way comparison of the comparator's `switch`
(App.tsx:329-340). -/
def fieldCmp (sortField : SortField) (a b : FileInfo) : Int :=
  match sortField with
  | .name => localeCompare a.name b.name
  | .type => localeCompare (typeLabel a.type) (typeLabel b.type)
  | .pages => (a.pages : Int) - (b.pages : Int)
  | .createdAt => localeCompare a.createdAt b.createdAt

/-- The full comparator passed to `sort` (App.tsx:326-341). -/
def compareFiles (sortField : SortField) (sortDirection : SortDirection)
    (a b : FileInfo) : Int :=
  fieldCmp sortField a b * dirSign sortDirection

/-- `sortedFiles` (App.tsx:326-341).  `Array.prototype.sort` is required
to be stable; for a consistent comparator its output is the unique stable
sorted permutation, which `mergeSort` with `compare ≤ 0` computes. -/
def sortedFiles (sortField : SortField) (sortDirection : SortDirection)
    (l : List FileInfo) : List FileInfo :=
  l.mergeSort fun a b => decide (compareFiles sortField sortDirection a b ≤ 0)

/-- The sorting state (`sortField`/`sortDirection` `useState`s). -/
structure SortState where
  sortField : SortField
  sortDirection : SortDirection
deriving DecidableEq

/-- `handleSort` (App.tsx:226-233). -/
def handleSort (s : SortState) (field : SortField) : SortState :=
  if s.sortField = field then
    { s with sortDirection := if s.sortDirection = .asc then .desc else .asc }
  else
    { sortField := field, sortDirection := .asc }

/-- `filesPerPage` (App.tsx:65). -/
def filesPerPage : Nat := 10

/-- `totalPages` (App.tsx:343): `Math.ceil(length / filesPerPage)`. -/
def totalPagesOf (n : Nat) : Nat := (n + filesPerPage - 1) / filesPerPage

/-- `visibleFiles` (App.tsx:344-345):
`sortedFiles.slice(startIndex, startIndex + filesPerPage)`. -/
def visibleFiles (sorted : List FileInfo) (currentPage : Nat) : List FileInfo :=
  (sorted.drop ((currentPage - 1) * filesPerPage)).take filesPerPage

/-- The "Previous" button handler (App.tsx:554). -/
def prevPageClick (p : Nat) : Nat := max 1 (p - 1)

/-- The "Next" button handler (App.tsx:566). -/
def nextPageClick (tp p : Nat) : Nat := min tp (p + 1)

/-- The slice of component state relevant to the search/sort/paginate
view pipeline. -/
structure AppState where
  fileList : List FileInfo
  searchQuery : String
  currentPage : Nat
  sortField : SortField
  sortDirection : SortDirection
deriving DecidableEq

/-- The search box `onChange` handler (App.tsx:496): it sets only
`searchQuery`; no other state is touched and no effect resets the page. -/
def setSearchQuery (s : AppState) (q : String) : AppState :=
  { s with searchQuery := q }

/-- The page slice actually rendered for a given state. -/
def visibleOf (s : AppState) : List FileInfo :=
  visibleFiles
    (sortedFiles s.sortField s.sortDirection (filteredFiles s.fileList s.searchQuery))
    s.currentPage

/-- Total page count of the records of one category in a result list. -/
def sumPages (l : List FileInfo) (t : PDFType) : Nat :=
  ((l.filter fun f => f.type == t).map FileInfo.pages).sum

/-- A well-behaved handle: a regular file on which every collaborator
step succeeds. -/
def okHandle (name : String) (pages : Nat) : PDFHandle :=
  { name := name, kind := .file, getFileOk := true, arrayBufferOk := true,
    parseOk := true, numPages := pages, lmDay := 5, lmMonth := 6, lmYear := 2024 }

/-- The four files of the spec's end-to-end scenario. -/
def fileA : PDFHandle := okHandle "A-WIDE.pdf" 3

/-- `B-A3.PDF`: uppercase extension, 5 pages. -/
def fileB : PDFHandle := okHandle "B-A3.PDF" 5

/-- `C-unknown.pdf`: carries no category marker, 2 pages. -/
def fileC : PDFHandle := okHandle "C-unknown.pdf" 2

/-- `D-A4.pdf`: 1 page. -/
def fileD : PDFHandle := okHandle "D-A4.pdf" 1

/-- A handle on which `getFile()` itself rejects. -/
def fileE : PDFHandle :=
  { okHandle "E-A4.pdf" 7 with getFileOk := false }

/-- A well-behaved 2-page `-A4` file. -/
def fileF : PDFHandle := okHandle "F-A4.pdf" 2

/-- A handle whose content fails to parse as a PDF. -/
def fileG : PDFHandle :=
  { okHandle "G-A4.pdf" 9 with parseOk := false }

/-- Two records with equal page counts (a sort-key tie on `pages`). -/
def tieRec1 : FileInfo := mkFileInfo (okHandle "B-A4.pdf" 2) .A4

/-- Second record of the tie; same page count, different name. -/
def tieRec2 : FileInfo := mkFileInfo (okHandle "A-A4.pdf" 2) .A4

/-- Two records with distinct page counts. -/
def pagesRec1 : FileInfo := mkFileInfo (okHandle "P-A4.pdf" 4) .A4

/-- Second distinct-pages record. -/
def pagesRec2 : FileInfo := mkFileInfo (okHandle "Q-A4.pdf" 1) .A4

/-- The one record of the stale-page scenario that matches the query
`"wide"`. -/
def wideRec : FileInfo := mkFileInfo (okHandle "X-WIDE.pdf" 6) .WIDE

/-- Filler records of the stale-page scenario (none matches `"wide"`). -/
def fillerRec : FileInfo := mkFileInfo (okHandle "Y-A4.pdf" 2) .A4

/-- An 11-record list whose full view has two pages but whose `"wide"`
filtrate has a single record. -/
def elevenFiles : List FileInfo := wideRec :: List.replicate 10 fillerRec

/-- The stale-page scenario's state before the query change: 11 records,
empty query, current page 2 (the last page of the unfiltered view). -/
def staleState : AppState :=
  { fileList := elevenFiles, searchQuery := "", currentPage := 2,
    sortField := .name, sortDirection := .asc }

/-! ## Helper lemmas: the string model -/

theorem listIncludes_nil : ∀ l : List Char, listIncludes [] l = true
  | [] => rfl
  | _ :: _ => by simp [listIncludes, List.isPrefixOf]

theorem jsIncludes_empty (s : String) : jsIncludes s "" = true :=
  listIncludes_nil s.toList

theorem charListCmp_self : ∀ l : List Char, charListCmp l l = 0
  | [] => rfl
  | a :: as => by
    simp only [charListCmp, lt_irrefl a, if_false]
    exact charListCmp_self as

theorem charListCmp_eq_zero_iff : ∀ a b : List Char, charListCmp a b = 0 ↔ a = b
  | [], [] => by simp [charListCmp]
  | [], _ :: _ => by simp [charListCmp]
  | _ :: _, [] => by simp [charListCmp]
  | a :: as, b :: bs => by
    simp only [charListCmp]
    by_cases h1 : a < b
    · simp [h1, ne_of_lt h1]
    · by_cases h2 : b < a
      · simp [h1, h2, (ne_of_lt h2).symm]
      · have hab : a = b := le_antisymm (not_lt.mp h2) (not_lt.mp h1)
        simp [h1, h2, hab, charListCmp_eq_zero_iff as bs]

theorem charListCmp_neg : ∀ a b : List Char, charListCmp a b = -charListCmp b a
  | [], [] => rfl
  | [], _ :: _ => rfl
  | _ :: _, [] => rfl
  | a :: as, b :: bs => by
    simp only [charListCmp]
    rcases lt_trichotomy a b with h | h | h
    · simp [h, asymm h]
    · subst h
      simp only [lt_self_iff_false, if_false]
      exact charListCmp_neg as bs
    · simp [h, asymm h]

theorem charListCmp_nonpos_trans :
    ∀ a b c : List Char, charListCmp a b ≤ 0 → charListCmp b c ≤ 0 → charListCmp a c ≤ 0
  | [], _, c => by cases c <;> simp [charListCmp]
  | _ :: _, [], _ => by simp [charListCmp]
  | _ :: _, _ :: _, [] => by simp [charListCmp]
  | a :: as, b :: bs, c :: cs => by
    intro h1 h2
    simp only [charListCmp] at h1 h2 ⊢
    rcases lt_trichotomy a b with hab | hab | hab
    · rcases lt_trichotomy b c with hbc | hbc | hbc
      · rw [if_pos (lt_trans hab hbc)]; omega
      · subst hbc; rw [if_pos hab]; omega
      · rw [if_neg (asymm hbc), if_pos hbc] at h2; omega
    · subst hab
      simp only [lt_self_iff_false, if_false] at h1
      rcases lt_trichotomy a c with hac | hac | hac
      · rw [if_pos hac]; omega
      · subst hac
        simp only [lt_self_iff_false, if_false]
        exact charListCmp_nonpos_trans as bs cs h1 (by
          simpa only [lt_self_iff_false, if_false] using h2)
      · rw [if_neg (asymm hac), if_pos hac] at h2; omega
    · rw [if_neg (asymm hab), if_pos hab] at h1; omega

theorem localeCompare_eq_zero_iff (a b : String) : localeCompare a b = 0 ↔ a = b := by
  rw [localeCompare, charListCmp_eq_zero_iff]
  exact ⟨fun h => String.ext h, fun h => by rw [h]⟩

theorem localeCompare_neg (a b : String) : localeCompare a b = -localeCompare b a :=
  charListCmp_neg a.toList b.toList

theorem localeCompare_nonpos_trans (a b c : String) :
    localeCompare a b ≤ 0 → localeCompare b c ≤ 0 → localeCompare a c ≤ 0 :=
  charListCmp_nonpos_trans a.toList b.toList c.toList

/-! ## Helper lemmas: the comparator -/

theorem fieldCmp_neg : ∀ (f : SortField) (a b : FileInfo), fieldCmp f a b = -fieldCmp f b a
  | .name, a, b => localeCompare_neg a.name b.name
  | .type, a, b => localeCompare_neg (typeLabel a.type) (typeLabel b.type)
  | .pages, a, b => by simp only [fieldCmp]; omega
  | .createdAt, a, b => localeCompare_neg a.createdAt b.createdAt

theorem fieldCmp_nonpos_trans : ∀ (f : SortField) (a b c : FileInfo),
    fieldCmp f a b ≤ 0 → fieldCmp f b c ≤ 0 → fieldCmp f a c ≤ 0
  | .name, a, b, c => localeCompare_nonpos_trans a.name b.name c.name
  | .type, a, b, c => localeCompare_nonpos_trans _ _ _
  | .pages, a, b, c => by simp only [fieldCmp]; omega
  | .createdAt, a, b, c => localeCompare_nonpos_trans _ _ _

theorem fieldCmp_zero_symm (f : SortField) (a b : FileInfo)
    (h : fieldCmp f a b = 0) : fieldCmp f b a = 0 := by
  have := fieldCmp_neg f a b
  omega

theorem fieldCmp_zero_trans : ∀ (f : SortField) (a b c : FileInfo),
    fieldCmp f a b = 0 → fieldCmp f b c = 0 → fieldCmp f a c = 0
  | .name, a, b, c, h1, h2 => by
    rw [fieldCmp, localeCompare_eq_zero_iff] at h1 h2 ⊢
    rw [h1, h2]
  | .type, a, b, c, h1, h2 => by
    rw [fieldCmp, localeCompare_eq_zero_iff] at h1 h2 ⊢
    rw [h1, h2]
  | .pages, a, b, c, h1, h2 => by
    simp only [fieldCmp] at h1 h2 ⊢
    omega
  | .createdAt, a, b, c, h1, h2 => by
    rw [fieldCmp, localeCompare_eq_zero_iff] at h1 h2 ⊢
    rw [h1, h2]

theorem compareFiles_asc (f : SortField) (a b : FileInfo) :
    compareFiles f .asc a b = fieldCmp f a b := by
  simp [compareFiles, dirSign]

theorem compareFiles_desc (f : SortField) (a b : FileInfo) :
    compareFiles f .desc a b = -fieldCmp f a b := by
  simp [compareFiles, dirSign]

theorem sortLE_trans (f : SortField) (d : SortDirection) :
    ∀ a b c : FileInfo,
      decide (compareFiles f d a b ≤ 0) → decide (compareFiles f d b c ≤ 0) →
      decide (compareFiles f d a c ≤ 0) := by
  intro a b c h1 h2
  rw [decide_eq_true_eq] at h1 h2 ⊢
  cases d
  · rw [compareFiles_asc] at h1 h2 ⊢
    exact fieldCmp_nonpos_trans f a b c h1 h2
  · rw [compareFiles_desc] at h1 h2 ⊢
    have hba : fieldCmp f b a ≤ 0 := by have := fieldCmp_neg f a b; omega
    have hcb : fieldCmp f c b ≤ 0 := by have := fieldCmp_neg f b c; omega
    have hca : fieldCmp f c a ≤ 0 := fieldCmp_nonpos_trans f c b a hcb hba
    have := fieldCmp_neg f a c
    omega

theorem sortLE_total (f : SortField) (d : SortDirection) :
    ∀ a b : FileInfo,
      (decide (compareFiles f d a b ≤ 0) || decide (compareFiles f d b a ≤ 0)) = true := by
  intro a b
  rw [Bool.or_eq_true, decide_eq_true_eq, decide_eq_true_eq]
  have := fieldCmp_neg f a b
  cases d
  · rw [compareFiles_asc, compareFiles_asc]; omega
  · rw [compareFiles_desc, compareFiles_desc]; omega

/-! ## Helper lemmas: the batching loop -/

theorem batchesFuel_nil (B fuel : Nat) : batchesFuel B fuel ([] : List α) = [] := by
  cases fuel <;> rfl

theorem batchesFuel_congr (B : Nat) (hB : 1 ≤ B) :
    ∀ (f1 f2 : Nat) (l : List α), l.length ≤ f1 → l.length ≤ f2 →
      batchesFuel B f1 l = batchesFuel B f2 l
  | _, _, [], _, _ => by rw [batchesFuel_nil, batchesFuel_nil]
  | 0, _, _ :: _, h1, _ => by simp at h1
  | _ + 1, 0, _ :: _, _, h2 => by simp at h2
  | f1 + 1, f2 + 1, a :: t, h1, h2 => by
    simp only [batchesFuel]
    congr 1
    have hd : ((a :: t).drop B).length = t.length + 1 - B := by simp
    simp only [List.length_cons] at h1 h2
    exact batchesFuel_congr B hB f1 f2 ((a :: t).drop B) (by omega) (by omega)

theorem batches_nil (B : Nat) : batches B ([] : List α) = [] := by
  rw [batches, batchesFuel_nil]
  simp

theorem batches_cons (B : Nat) (hB : 1 ≤ B) (a : α) (t : List α) :
    batches B (a :: t) = ((a :: t).take B) :: batches B ((a :: t).drop B) := by
  rw [batches, batches, if_neg (by omega), if_neg (by omega)]
  simp only [List.length_cons, batchesFuel]
  congr 1
  have hd : ((a :: t).drop B).length = t.length + 1 - B := by simp
  exact batchesFuel_congr B hB t.length ((a :: t).drop B).length ((a :: t).drop B)
    (by omega) (by omega)

theorem batches_flatten (B : Nat) (hB : 1 ≤ B) :
    ∀ l : List α, (batches B l).flatten = l
  | [] => by rw [batches_nil]; rfl
  | a :: t => by
    rw [batches_cons B hB a t]
    simp only [List.flatten_cons]
    rw [batches_flatten B hB ((a :: t).drop B)]
    exact List.take_append_drop B (a :: t)
termination_by l => l.length
decreasing_by
  simp only [List.length_drop, List.length_cons]
  omega

theorem batches_length (B : Nat) (hB : 1 ≤ B) :
    ∀ l : List α, (batches B l).length = (l.length + B - 1) / B
  | [] => by
    rw [batches_nil]
    simp only [List.length_nil]
    rw [Nat.div_eq_of_lt (by omega)]
  | a :: t => by
    rw [batches_cons B hB a t]
    simp only [List.length_cons]
    rw [batches_length B hB ((a :: t).drop B)]
    simp only [List.length_drop, List.length_cons]
    have h1 : t.length + 1 + B - 1 = t.length + B := by omega
    rw [h1, Nat.add_div_right _ (by omega)]
    by_cases hc : t.length + 1 ≤ B
    · have h2 : t.length + 1 - B + B - 1 = B - 1 := by omega
      rw [h2, Nat.div_eq_of_lt (by omega), Nat.div_eq_of_lt (by omega : t.length < B)]
    · have h2 : t.length + 1 - B + B - 1 = t.length := by omega
      rw [h2]
termination_by l => l.length
decreasing_by
  simp only [List.length_drop, List.length_cons]
  omega

theorem batches_eq_nil_iff (B : Nat) (hB : 1 ≤ B) (l : List α) :
    batches B l = [] ↔ l = [] := by
  cases l with
  | nil => simp [batches_nil]
  | cons a t => simp [batches_cons B hB a t]

theorem batches_group_size (B : Nat) (hB : 1 ≤ B) :
    ∀ (l : List α), ∀ g ∈ batches B l, g ≠ [] ∧ g.length ≤ B
  | [] => by rw [batches_nil]; intro g hg; simp at hg
  | a :: t => by
    rw [batches_cons B hB a t]
    intro g hg
    rcases List.mem_cons.mp hg with h | h
    · subst h
      refine ⟨?_, ?_⟩
      · cases B with
        | zero => omega
        | succ n => simp [List.take_succ_cons]
      · rw [List.length_take]
        omega
    · exact batches_group_size B hB ((a :: t).drop B) g h
termination_by l => l.length
decreasing_by
  simp only [List.length_drop, List.length_cons]
  omega

theorem batches_full_groups (B : Nat) (hB : 1 ≤ B) :
    ∀ (l : List α), ∀ g ∈ (batches B l).dropLast, g.length = B
  | [] => by rw [batches_nil]; intro g hg; simp at hg
  | a :: t => by
    rw [batches_cons B hB a t]
    by_cases hd : (a :: t).drop B = []
    · rw [hd, batches_nil]
      intro g hg
      simp at hg
    · have hne : batches B ((a :: t).drop B) ≠ [] :=
        fun hcon => hd ((batches_eq_nil_iff B hB _).mp hcon)
      obtain ⟨x, xs, hx⟩ := List.exists_cons_of_ne_nil hne
      rw [hx, List.dropLast_cons₂]
      intro g hg
      rcases List.mem_cons.mp hg with h | h
      · subst h
        have hlen : B < t.length + 1 := by
          by_contra hcon
          exact hd (List.drop_eq_nil_of_le (by simp; omega))
        rw [List.length_take, List.length_cons]
        omega
      · rw [← hx] at h
        exact batches_full_groups B hB ((a :: t).drop B) g h
termination_by l => l.length
decreasing_by
  simp only [List.length_drop, List.length_cons]
  omega

theorem mem_of_mem_batches (B : Nat) (hB : 1 ≤ B) {l g : List α} {a : α}
    (hg : g ∈ batches B l) (ha : a ∈ g) : a ∈ l := by
  rw [← batches_flatten B hB l]
  exact List.mem_flatten.mpr ⟨g, hg, ha⟩

/-! ## Helper lemmas: batching refines sequential processing -/

theorem runBatches_eq_seq (B : Nat) (hB : 1 ≤ B) (l : List PDFHandle) (s : RunState) :
    runBatches B l s = processPDFBatch l s := by
  rw [runBatches]
  calc (batches B l).foldl (fun st batch => processPDFBatch batch st) s
      = ((batches B l).flatten).foldl stepFile s :=
        (List.foldl_flatten stepFile s (batches B l)).symm
    _ = l.foldl stepFile s := by rw [batches_flatten B hB l]

/-! ## Helper lemmas: `processPDFFile` characterization -/

theorem processPDFFile_cases (h : PDFHandle) (c : PageCounts) :
    ((processPDFFile h c).record = none ∧ (processPDFFile h c).counts = c)
    ∨ ∃ t : PDFType, classify h.name = some t
        ∧ (processPDFFile h c).record = some (mkFileInfo h t)
        ∧ (processPDFFile h c).counts = addPages c t h.numPages := by
  simp only [processPDFFile]
  split_ifs with hguard hgf hab hp hw h3 h4
  · exact Or.inl ⟨rfl, rfl⟩
  · exact Or.inl ⟨rfl, rfl⟩
  · exact Or.inl ⟨rfl, rfl⟩
  · exact Or.inr ⟨.WIDE, by simp [classify, hw], rfl, rfl⟩
  · exact Or.inr ⟨.A3, by simp [classify, hw, h3], rfl, rfl⟩
  · exact Or.inr ⟨.A4, by simp [classify, hw, h3, h4], rfl, rfl⟩
  · exact Or.inl ⟨rfl, rfl⟩
  · exact Or.inl ⟨rfl, rfl⟩

theorem processPDFFile_thrown_iff (h : PDFHandle) (c : PageCounts) :
    (processPDFFile h c).thrown = true ↔
      (h.kind = HandleKind.file ∧ jsEndsWith h.name ".pdf" = true ∧ h.getFileOk = false) := by
  simp only [processPDFFile]
  split_ifs with hguard hgf hab hp hw h3 h4 <;> simp_all

theorem processPDFFile_unclassified (h : PDFHandle) (c : PageCounts)
    (hcl : classify h.name = none) :
    (processPDFFile h c).record = none ∧ (processPDFFile h c).counts = c := by
  rcases processPDFFile_cases h c with ⟨h1, h2⟩ | ⟨t, ht, _, _⟩
  · exact ⟨h1, h2⟩
  · rw [hcl] at ht
    cases ht

theorem processPDFFile_skip (h : PDFHandle) (c : PageCounts)
    (hg : h.getFileOk = true) (hfail : h.arrayBufferOk = false ∨ h.parseOk = false) :
    (processPDFFile h c).record = none ∧ (processPDFFile h c).counts = c
    ∧ (processPDFFile h c).thrown = false := by
  simp only [processPDFFile]
  split_ifs with hguard hgf hab hp hw h3 h4 <;> simp_all

theorem processPDFFile_parsed (h : PDFHandle) (c : PageCounts)
    (hk : h.kind = HandleKind.file) (he : jsEndsWith h.name ".pdf" = true)
    (hg : h.getFileOk = true) (ha : h.arrayBufferOk = true) (hp : h.parseOk = true) :
    (processPDFFile h c).parsed = true := by
  simp only [processPDFFile]
  split_ifs with hguard hgf hab hpf hw h3 h4 <;> simp_all

/-! ## Helper lemmas: the tally invariant -/

theorem countsOf_addPages (c : PageCounts) (t u : PDFType) (n : Nat) :
    countsOf (addPages c t n) u = countsOf c u + if u = t then n else 0 := by
  cases t <;> cases u <;> simp [addPages, countsOf]

theorem sumPages_append_single (l : List FileInfo) (f : FileInfo) (t : PDFType) :
    sumPages (l ++ [f]) t = sumPages l t + if f.type = t then f.pages else 0 := by
  simp only [sumPages, List.filter_append]
  by_cases hf : f.type = t
  · simp [hf]
  · simp [hf]

theorem stepFile_tally (s : RunState) (h : PDFHandle)
    (inv : ∀ t, countsOf s.counts t = sumPages s.fileList t) :
    ∀ t, countsOf (stepFile s h).counts t = sumPages (stepFile s h).fileList t := by
  intro t
  by_cases hs : s.thrown = true
  · simp only [stepFile, if_pos hs]
    exact inv t
  · simp only [stepFile, if_neg hs]
    rcases processPDFFile_cases h s.counts with ⟨h1, h2⟩ | ⟨u, _, h1, h2⟩
    · simp only [h1, h2]
      exact inv t
    · simp only [h1, h2]
      rw [countsOf_addPages, sumPages_append_single, inv t]
      by_cases ht : t = u
      · subst ht
        simp [mkFileInfo]
      · simp only [mkFileInfo, if_neg ht]
        simp only [if_neg (fun hcon : u = t => ht hcon.symm)]

theorem processPDFBatch_tally (l : List PDFHandle) : ∀ (s : RunState),
    (∀ t, countsOf s.counts t = sumPages s.fileList t) →
    ∀ t, countsOf (processPDFBatch l s).counts t = sumPages (processPDFBatch l s).fileList t := by
  induction l with
  | nil => exact fun s inv t => inv t
  | cons h rest ih => exact fun s inv t => ih (stepFile s h) (stepFile_tally s h inv) t

theorem foldBatches_tally (bs : List (List PDFHandle)) : ∀ (s : RunState),
    (∀ t, countsOf s.counts t = sumPages s.fileList t) →
    ∀ t, countsOf ((bs.foldl (fun st b => processPDFBatch b st) s)).counts t
      = sumPages ((bs.foldl (fun st b => processPDFBatch b st) s)).fileList t := by
  induction bs with
  | nil => exact fun s inv t => inv t
  | cons b rest ih => exact fun s inv t => ih (processPDFBatch b s) (processPDFBatch_tally b s inv) t

theorem initial_tally : ∀ t, countsOf initialRunState.counts t = sumPages initialRunState.fileList t := by
  intro t
  cases t <;> rfl

/-! ## Helper lemmas: exception propagation -/

theorem stepFile_thrown (s : RunState) (h : PDFHandle)
    (hs : s.thrown = false) (hg : h.getFileOk = true) :
    (stepFile s h).thrown = false := by
  simp only [stepFile, hs, Bool.false_eq_true, if_false]
  cases hth : (processPDFFile h s.counts).thrown
  · rfl
  · have := (processPDFFile_thrown_iff h s.counts).mp hth
    rw [hg] at this
    simp at this

theorem processPDFBatch_thrown (l : List PDFHandle) : ∀ (s : RunState),
    s.thrown = false → (∀ h ∈ l, h.getFileOk = true) →
    (processPDFBatch l s).thrown = false := by
  induction l with
  | nil => exact fun s hs _ => hs
  | cons h rest ih =>
    intro s hs hall
    exact ih (stepFile s h)
      (stepFile_thrown s h hs (hall h (List.mem_cons_self h rest)))
      (fun x hx => hall x (List.mem_cons_of_mem h hx))

/-! ## Helper lemmas: the stable sort -/

theorem sortedFiles_perm (f : SortField) (d : SortDirection) (l : List FileInfo) :
    List.Perm (sortedFiles f d l) l :=
  List.mergeSort_perm l _

theorem sortedFiles_sorted (f : SortField) (d : SortDirection) (l : List FileInfo) :
    (sortedFiles f d l).Pairwise
      (fun a b => (decide (compareFiles f d a b ≤ 0) : Bool) = true) :=
  List.sorted_mergeSort (sortLE_trans f d) (sortLE_total f d) l

theorem sortedFiles_desc_eq_reverse (f : SortField) (l : List FileInfo)
    (hdist : ∀ a ∈ l, ∀ b ∈ l, fieldCmp f a b = 0 → a = b) :
    sortedFiles f .desc l = (sortedFiles f .asc l).reverse := by
  have p1 : List.Perm (sortedFiles f .desc l) l := sortedFiles_perm f .desc l
  have p2 : List.Perm ((sortedFiles f .asc l).reverse) l :=
    (List.reverse_perm (sortedFiles f .asc l)).trans (sortedFiles_perm f .asc l)
  have hw : ∀ a b : FileInfo, a ∈ sortedFiles f .desc l → b ∈ (sortedFiles f .asc l).reverse →
      (decide (compareFiles f .desc a b ≤ 0) : Bool) = true →
      (decide (compareFiles f .desc b a ≤ 0) : Bool) = true → a = b := by
    intro a b ha hb hab hba
    rw [decide_eq_true_eq, compareFiles_desc] at hab hba
    have hneg := fieldCmp_neg f a b
    have hz : fieldCmp f a b = 0 := by omega
    exact hdist a (p1.subset ha) b (p2.subset hb) hz
  have h2 : ((sortedFiles f .asc l).reverse).Pairwise
      (fun a b => (decide (compareFiles f .desc a b ≤ 0) : Bool) = true) := by
    rw [List.pairwise_reverse]
    refine (sortedFiles_sorted f .asc l).imp ?_
    intro a b hab
    rw [decide_eq_true_eq, compareFiles_asc] at hab
    rw [decide_eq_true_eq, compareFiles_desc]
    have := fieldCmp_neg f b a
    omega
  exact List.Perm.eq_of_sorted hw (sortedFiles_sorted f .desc l) h2 (p1.trans p2.symm)

theorem sortedFiles_stable_filter (f : SortField) (d : SortDirection)
    (l : List FileInfo) (x : FileInfo) :
    (sortedFiles f d l).filter (fun y => decide (fieldCmp f y x = 0))
      = l.filter (fun y => decide (fieldCmp f y x = 0)) := by
  have hsub : List.Sublist
      (l.filter (fun y => decide (fieldCmp f y x = 0))) (sortedFiles f d l) := by
    apply List.sublist_mergeSort (sortLE_trans f d) (sortLE_total f d)
    · apply List.pairwise_of_forall_mem_list
      intro a ha b hb
      rw [List.mem_filter, decide_eq_true_eq] at ha hb
      have hz : fieldCmp f a b = 0 :=
        fieldCmp_zero_trans f a x b ha.2 (fieldCmp_zero_symm f b x hb.2)
      rw [decide_eq_true_eq]
      cases d
      · rw [compareFiles_asc]; omega
      · rw [compareFiles_desc]; omega
    · exact List.filter_sublist l
  have hperm : List.Perm
      ((sortedFiles f d l).filter (fun y => decide (fieldCmp f y x = 0)))
      (l.filter (fun y => decide (fieldCmp f y x = 0))) :=
    (sortedFiles_perm f d l).filter _
  have hsub2 : List.Sublist
      (l.filter (fun y => decide (fieldCmp f y x = 0)))
      ((sortedFiles f d l).filter (fun y => decide (fieldCmp f y x = 0))) := by
    have h1 := hsub.filter (fun y => decide (fieldCmp f y x = 0))
    rwa [List.filter_filter, (by
      funext a
      rw [Bool.and_self] : (fun a : FileInfo =>
        decide (fieldCmp f a x = 0) && decide (fieldCmp f a x = 0))
        = fun a => decide (fieldCmp f a x = 0))] at h1
  exact (hsub2.eq_of_length hperm.length_eq.symm).symm

/-! ## Claim theorems -/

/-- C1: the spec's end-to-end scenario claims final tallies
`{WIDE:3, A3:5, A4:1}`, 3 records in order A, B, D, and a 3-row file sheet.
The code instead drops `B-A3.PDF` entirely: the enumerator admits it
(case-insensitive `.pdf` test, App.tsx:188) but `processPDFFile` re-checks
the extension case-sensitively (App.tsx:84) and returns `null`.  This
theorem evaluates the run at exactly the claim's input: the A3 tally stays
0, only 2 records (A, D) are produced, the category sheet has 3 rows and
the file sheet 2 rows. -/
theorem claim1_end_to_end_eval :
    (analysePDFs 2 [fileA, fileB, fileC, fileD]).counts = { WIDE := 3, A3 := 0, A4 := 1 }
  ∧ (analysePDFs 2 [fileA, fileB, fileC, fileD]).fileList.map FileInfo.name
      = ["A-WIDE.pdf", "D-A4.pdf"]
  ∧ (analysePDFs 2 [fileA, fileB, fileC, fileD]).counts.A3 ≠ 5
  ∧ (analysePDFs 2 [fileA, fileB, fileC, fileD]).fileList.length ≠ 3
  ∧ (pageCounterData (analysePDFs 2 [fileA, fileB, fileC, fileD]).counts).length = 3
  ∧ (completedFilesData (analysePDFs 2 [fileA, fileB, fileC, fileD]).fileList).length = 2 := by
  decide

/-- C2: the classifier uppercases the filename and tests the markers
`-WIDE`, `-A3`, `-A4` in that priority order, returning the first match's
category; a filename containing none of the markers (case-insensitively)
is unclassified and contributes neither a `FileInfo` record nor any tally
increment. -/
theorem claim2_classifier_priority (name : String) (h : PDFHandle) (c : PageCounts) :
    (classify name = some .WIDE ↔ jsIncludes (jsToUpper name) "-WIDE" = true)
  ∧ (classify name = some .A3 ↔
      (jsIncludes (jsToUpper name) "-WIDE" = false
        ∧ jsIncludes (jsToUpper name) "-A3" = true))
  ∧ (classify name = some .A4 ↔
      (jsIncludes (jsToUpper name) "-WIDE" = false
        ∧ jsIncludes (jsToUpper name) "-A3" = false
        ∧ jsIncludes (jsToUpper name) "-A4" = true))
  ∧ (classify name = none ↔
      (jsIncludes (jsToUpper name) "-WIDE" = false
        ∧ jsIncludes (jsToUpper name) "-A3" = false
        ∧ jsIncludes (jsToUpper name) "-A4" = false))
  ∧ (classify h.name = none →
      (processPDFFile h c).record = none ∧ (processPDFFile h c).counts = c) := by
  refine ⟨?_, ?_, ?_, ?_, processPDFFile_unclassified h c⟩
  all_goals
    cases hw : jsIncludes (jsToUpper name) "-WIDE" <;>
      cases h3 : jsIncludes (jsToUpper name) "-A3" <;>
        cases h4 : jsIncludes (jsToUpper name) "-A4" <;>
          simp [classify, hw, h3, h4]

/-- C2 witness: `C-unknown.pdf` carries no marker, so processing it yields
no record and leaves the tallies unchanged. -/
theorem claim2_classifier_priority_witness :
    (processPDFFile fileC { WIDE := 0, A3 := 0, A4 := 0 }).record = none
  ∧ (processPDFFile fileC { WIDE := 0, A3 := 0, A4 := 0 }).counts
      = { WIDE := 0, A3 := 0, A4 := 0 } :=
  (claim2_classifier_priority "C-unknown.pdf" fileC
    { WIDE := 0, A3 := 0, A4 := 0 }).2.2.2.2 (by decide)

/-- C3 counterexample: the claim says every I/O failure on reading a file
is caught at the per-file boundary and never aborts the run.  But
`fileHandle.getFile()` is awaited outside the `try` block (App.tsx:86):
its failure on `fileE` unwinds both loops, so `fileF` — which would
produce a record — is never processed and the run ends with the exception
caught only at the run level. -/
theorem claim3_per_file_recovery_cex :
    (analysePDFs 3 [fileE, fileF]).thrown = true
  ∧ (analysePDFs 3 [fileE, fileF]).fileList = []
  ∧ (processPDFFile fileF initialRunState.counts).record ≠ none := by
  decide

/-- C3 (amended): failures of `file.arrayBuffer()` or of PDF parsing are
caught at the per-file boundary — the file is skipped with no record or
tally change, no exception escapes, and the run continues — but a
`getFile()` failure escapes the per-file boundary and aborts the run.
When `getFile` succeeds on every entry the run always completes: no
exception escapes and the batched run processes every candidate file
sequentially. -/
theorem claim3_per_file_recovery_amended (B : Nat) (entries : List PDFHandle)
    (hB : 1 ≤ B) (hget : ∀ h ∈ entries, h.getFileOk = true) :
    (analysePDFs B entries).thrown = false
  ∧ analysePDFs B entries = processPDFBatch (collectPDFFiles entries) initialRunState
  ∧ (∀ (h : PDFHandle) (c : PageCounts), h.getFileOk = true →
      (h.arrayBufferOk = false ∨ h.parseOk = false) →
      (processPDFFile h c).record = none ∧ (processPDFFile h c).counts = c
        ∧ (processPDFFile h c).thrown = false) := by
  refine ⟨?_, ?_, fun h c => processPDFFile_skip h c⟩
  · rw [analysePDFs, runBatches_eq_seq B hB]
    apply processPDFBatch_thrown _ initialRunState rfl
    intro h hh
    exact hget h (List.mem_filter.mp hh).1
  · rw [analysePDFs]
    exact runBatches_eq_seq B hB _ _

/-- C3 witness: a run over `fileF` (fine) and `fileG` (parse failure) with
batch size 3 completes without an escaped exception; `fileG` alone is
skipped with no record, tally change or exception. -/
theorem claim3_per_file_recovery_witness :
    (analysePDFs 3 [fileF, fileG]).thrown = false
  ∧ analysePDFs 3 [fileF, fileG] = processPDFBatch (collectPDFFiles [fileF, fileG]) initialRunState
  ∧ ((processPDFFile fileG initialRunState.counts).record = none
      ∧ (processPDFFile fileG initialRunState.counts).counts = initialRunState.counts
      ∧ (processPDFFile fileG initialRunState.counts).thrown = false) := by
  have h := claim3_per_file_recovery_amended 3 [fileF, fileG] (by decide) (by decide)
  exact ⟨h.1, h.2.1, h.2.2 fileG initialRunState.counts (by decide) (Or.inr (by decide))⟩

/-- C9 counterexample: the claim says unclassified files are excluded
without their contents being parsed, but `processPDFFile` reads and parses
the PDF (App.tsx:89-90) before testing the markers (App.tsx:93-105):
`C-unknown.pdf` is unclassified yet its contents are parsed. -/
theorem claim9_parse_order_cex :
    classify fileC.name = none
  ∧ (processPDFFile fileC { WIDE := 0, A3 := 0, A4 := 0 }).record = none
  ∧ (processPDFFile fileC { WIDE := 0, A3 := 0, A4 := 0 }).parsed = true := by
  decide

/-- C9 (amended): for every candidate file whose reads succeed, the runner
parses the file's contents first and classifies afterwards; an
unclassified file is excluded only after its contents were parsed (and the
parsed document released) — classification does not gate parsing. -/
theorem claim9_parse_order_amended (h : PDFHandle) (c : PageCounts)
    (hk : h.kind = HandleKind.file) (he : jsEndsWith h.name ".pdf" = true)
    (hg : h.getFileOk = true) (ha : h.arrayBufferOk = true) (hp : h.parseOk = true) :
    (processPDFFile h c).parsed = true
  ∧ (classify h.name = none → (processPDFFile h c).record = none) :=
  ⟨processPDFFile_parsed h c hk he hg ha hp,
    fun hcl => (processPDFFile_unclassified h c hcl).1⟩

/-- C9 witness: instantiated at `C-unknown.pdf`: parsed, unclassified,
excluded. -/
theorem claim9_parse_order_witness :
    (processPDFFile fileC initialRunState.counts).parsed = true
  ∧ (processPDFFile fileC initialRunState.counts).record = none := by
  have h := claim9_parse_order_amended fileC initialRunState.counts
    (by decide) (by decide) (by decide) (by decide) (by decide)
  exact ⟨h.1, h.2 (by decide)⟩

/-- C4: at every point after a batch completes — in particular at run
completion — each category tally equals the sum of `pages` over the
records of that category in the result list. -/
theorem claim4_tally_invariant (B : Nat) (entries : List PDFHandle) (k : Nat) (t : PDFType) :
    countsOf (runPrefix B entries k).counts t = sumPages (runPrefix B entries k).fileList t
  ∧ countsOf (analysePDFs B entries).counts t = sumPages (analysePDFs B entries).fileList t :=
  ⟨foldBatches_tally _ initialRunState initial_tally t,
    foldBatches_tally _ initialRunState initial_tally t⟩

/-- C5: with a positive batch size B, the runner splits the N candidate
files into `ceil(N/B)` consecutive groups — every group nonempty and of
size at most B, all but the last of size exactly B, concatenating back to
the input in order — and the batched run equals sequential processing of
all files from any starting state: batching neither reorders files nor
drops any beyond those dropped by classification or per-file failure. -/
theorem claim5_batching_refinement (B : Nat) (hB : 1 ≤ B) (l : List PDFHandle) (s : RunState) :
    (batches B l).length = totalBatches l.length B
  ∧ (batches B l).flatten = l
  ∧ (∀ g ∈ batches B l, g ≠ [] ∧ g.length ≤ B)
  ∧ (∀ g ∈ (batches B l).dropLast, g.length = B)
  ∧ runBatches B l s = processPDFBatch l s := by
  refine ⟨?_, batches_flatten B hB l, batches_group_size B hB l,
    batches_full_groups B hB l, runBatches_eq_seq B hB l s⟩
  rw [batches_length B hB l, totalBatches]

/-- C5 witness: instantiated at the four-file directory with batch size 2. -/
theorem claim5_batching_refinement_witness :
    (batches 2 [fileA, fileB, fileC, fileD]).length = totalBatches 4 2
  ∧ (batches 2 [fileA, fileB, fileC, fileD]).flatten = [fileA, fileB, fileC, fileD]
  ∧ runBatches 2 [fileA, fileB, fileC, fileD] initialRunState
      = processPDFBatch [fileA, fileB, fileC, fileD] initialRunState := by
  have h := claim5_batching_refinement 2 (by decide) [fileA, fileB, fileC, fileD] initialRunState
  exact ⟨h.1, h.2.1, h.2.2.2.2⟩

/-- C6 counterexample: the claim requires that sorting the same field twice
yields the exact reverse AND that the sort is stable; with a tie on the
active key these conflict.  Clicking `pages` twice from the initial state
reaches (pages, desc); on two records tied on `pages` the stable sort
returns them in stored order for both directions, so the second view is
not the reverse of the first. -/
theorem claim6_sort_reverse_cex :
    handleSort { sortField := .name, sortDirection := .asc } .pages
      = { sortField := .pages, sortDirection := .asc }
  ∧ handleSort { sortField := .pages, sortDirection := .asc } .pages
      = { sortField := .pages, sortDirection := .desc }
  ∧ sortedFiles .pages .desc [tieRec1, tieRec2]
      ≠ (sortedFiles .pages .asc [tieRec1, tieRec2]).reverse := by
  refine ⟨by decide, by decide, ?_⟩
  have h1 : sortedFiles .pages .asc [tieRec1, tieRec2] = [tieRec1, tieRec2] :=
    List.mergeSort_of_sorted (by decide)
  have h2 : sortedFiles .pages .desc [tieRec1, tieRec2] = [tieRec1, tieRec2] :=
    List.mergeSort_of_sorted (by decide)
  rw [h1, h2]
  decide

/-- C6 (amended): sorting the same field twice yields the exact reverse
provided the active field's keys are pairwise distinct on the list (on
ties the stable sort returns the same order twice); the sort is stable
(the subsequence of records tied with any fixed record is preserved);
toggling the active key flips the direction and selecting a different key
resets it to ascending. -/
theorem claim6_sort_amended (f : SortField) (l : List FileInfo)
    (hdist : ∀ a ∈ l, ∀ b ∈ l, fieldCmp f a b = 0 → a = b) :
    (sortedFiles f .desc l = (sortedFiles f .asc l).reverse)
  ∧ (∀ (l2 : List FileInfo) (d : SortDirection) (x : FileInfo),
      (sortedFiles f d l2).filter (fun y => decide (fieldCmp f y x = 0))
        = l2.filter (fun y => decide (fieldCmp f y x = 0)))
  ∧ (∀ s : SortState, handleSort s s.sortField
      = { sortField := s.sortField,
          sortDirection := if s.sortDirection = .asc then .desc else .asc })
  ∧ (∀ (s : SortState) (g : SortField), s.sortField ≠ g →
      handleSort s g = { sortField := g, sortDirection := .asc }) := by
  refine ⟨sortedFiles_desc_eq_reverse f l hdist,
    fun l2 d x => sortedFiles_stable_filter f d l2 x, ?_, ?_⟩
  · intro s
    simp [handleSort]
  · intro s g hne
    simp [handleSort, hne]

/-- C6 witness: distinct-keys reverse on two records with pages 4 and 1;
tie-subsequence stability on the tied pair; the two `handleSort` laws at
concrete states. -/
theorem claim6_sort_amended_witness :
    (sortedFiles .pages .desc [pagesRec1, pagesRec2]
      = (sortedFiles .pages .asc [pagesRec1, pagesRec2]).reverse)
  ∧ ((sortedFiles .pages .asc [tieRec1, tieRec2]).filter
        (fun y => decide (fieldCmp .pages y tieRec1 = 0))
      = [tieRec1, tieRec2].filter (fun y => decide (fieldCmp .pages y tieRec1 = 0)))
  ∧ handleSort { sortField := .pages, sortDirection := .asc } .pages
      = { sortField := .pages, sortDirection := .desc }
  ∧ handleSort { sortField := .name, sortDirection := .desc } .pages
      = { sortField := .pages, sortDirection := .asc } := by
  have h := claim6_sort_amended .pages [pagesRec1, pagesRec2] (by decide)
  refine ⟨h.1, h.2.1 [tieRec1, tieRec2] .asc tieRec1, ?_, ?_⟩
  · exact h.2.2.1 { sortField := .pages, sortDirection := .asc }
  · exact h.2.2.2 { sortField := .name, sortDirection := .desc } .pages (by decide)

/-- C7: filtering with the empty query returns the full list; a query
matching no field of any record returns the empty list; and a record is
kept exactly when the lowercased query is a substring of its lowercased
name, lowercased category label, decimal page count, or lowercased
formatted date. -/
theorem claim7_filtering (l : List FileInfo) (q : String) :
    filteredFiles l "" = l
  ∧ ((∀ f ∈ l, fileMatchesQuery q f = false) → filteredFiles l q = [])
  ∧ (∀ f : FileInfo, f ∈ filteredFiles l q ↔ f ∈ l ∧
      (jsIncludes (jsToLower f.name) (jsToLower q) = true
        ∨ jsIncludes (jsToLower (typeLabel f.type)) (jsToLower q) = true
        ∨ jsIncludes (toString f.pages) (jsToLower q) = true
        ∨ jsIncludes (jsToLower f.createdAt) (jsToLower q) = true)) := by
  refine ⟨?_, ?_, ?_⟩
  · apply List.filter_eq_self.mpr
    intro a _
    have h0 : jsToLower "" = "" := rfl
    simp [fileMatchesQuery, h0, jsIncludes_empty]
  · intro hnone
    apply List.filter_eq_nil_iff.mpr
    intro a ha
    simp [hnone a ha]
  · intro f
    rw [filteredFiles, List.mem_filter]
    simp only [fileMatchesQuery, Bool.or_eq_true]
    tauto

/-- C7 witness: on a one-record list, the empty query keeps the record and
the query `"zzz"`, which matches no field, yields the empty list. -/
theorem claim7_filtering_witness :
    filteredFiles [tieRec1] "" = [tieRec1] ∧ filteredFiles [tieRec1] "zzz" = [] :=
  ⟨(claim7_filtering [tieRec1] "zzz").1,
    (claim7_filtering [tieRec1] "zzz").2.1 (by decide)⟩

/-- C8: the page size is the fixed constant 10; a 25-record list yields 3
pages of sizes 10, 10 and 5; Previous at page 1 and Next at the last page
are no-ops; and from any current page in `[1, totalPages]` both handlers
keep the page clamped within `[1, totalPages]`. -/
theorem claim8_pagination (l : List FileInfo) (hl : l.length = 25) (p tp : Nat)
    (hp1 : 1 ≤ p) (hp2 : p ≤ tp) :
    filesPerPage = 10
  ∧ totalPagesOf l.length = 3
  ∧ (visibleFiles l 1).length = 10
  ∧ (visibleFiles l 2).length = 10
  ∧ (visibleFiles l 3).length = 5
  ∧ prevPageClick 1 = 1
  ∧ nextPageClick tp tp = tp
  ∧ (1 ≤ prevPageClick p ∧ prevPageClick p ≤ tp)
  ∧ (1 ≤ nextPageClick tp p ∧ nextPageClick tp p ≤ tp) := by
  refine ⟨rfl, ?_, ?_, ?_, ?_, rfl, ?_, ?_, ?_⟩
  · rw [hl]
    decide
  · simp [visibleFiles, List.length_take, List.length_drop, filesPerPage, hl]
  · simp [visibleFiles, List.length_take, List.length_drop, filesPerPage, hl]
  · simp [visibleFiles, List.length_take, List.length_drop, filesPerPage, hl]
  · rw [nextPageClick, Nat.min_def]
    split <;> omega
  · rw [prevPageClick, Nat.max_def]
    constructor <;> (split <;> omega)
  · rw [nextPageClick, Nat.min_def]
    constructor <;> (split <;> omega)

/-- C8 witness: instantiated at a concrete 25-record list with current
page 2 of 3. -/
theorem claim8_pagination_witness :
    totalPagesOf (List.replicate 25 tieRec1).length = 3
  ∧ (visibleFiles (List.replicate 25 tieRec1) 3).length = 5
  ∧ prevPageClick 1 = 1
  ∧ nextPageClick 3 3 = 3
  ∧ (1 ≤ nextPageClick 3 2 ∧ nextPageClick 3 2 ≤ 3) := by
  have h := claim8_pagination (List.replicate 25 tieRec1) (by simp) 2 3 (by decide) (by decide)
  exact ⟨h.2.1, h.2.2.2.2.1, h.2.2.2.2.2.1, h.2.2.2.2.2.2.1, h.2.2.2.2.2.2.2.2⟩

/-- C10: the search box handler updates only the query — current page,
sort field and direction are untouched, and nothing clamps the page — and
consequently in the stale-page scenario (11 records, current page 2 valid
for the unfiltered view, query narrowed to one record) the filtered list
is non-empty while the visible page slice is empty. -/
theorem claim10_search_frame :
    (∀ (s : AppState) (q : String),
        (setSearchQuery s q).currentPage = s.currentPage
      ∧ (setSearchQuery s q).sortField = s.sortField
      ∧ (setSearchQuery s q).sortDirection = s.sortDirection
      ∧ (setSearchQuery s q).fileList = s.fileList)
  ∧ totalPagesOf (filteredFiles staleState.fileList staleState.searchQuery).length = 2
  ∧ staleState.currentPage = 2
  ∧ filteredFiles (setSearchQuery staleState "wide").fileList
      (setSearchQuery staleState "wide").searchQuery ≠ []
  ∧ visibleOf (setSearchQuery staleState "wide") = [] := by
  refine ⟨fun s q => ⟨rfl, rfl, rfl, rfl⟩, by decide, rfl, by decide, ?_⟩
  show visibleFiles
    (sortedFiles SortField.name SortDirection.asc (filteredFiles elevenFiles "wide")) 2 = []
  have hlen : (sortedFiles SortField.name SortDirection.asc
      (filteredFiles elevenFiles "wide")).length = 1 := by
    rw [sortedFiles, List.length_mergeSort]
    decide
  rw [visibleFiles, List.drop_eq_nil_of_le (by rw [hlen]; decide)]
  rfl

end PDFCounter
